import Mathlib

/-!
Verification development for the CodeBuddy sketch-to-markup backend.

The Python sources are shallowly embedded:
* `Component` mirrors `image_processing/detector.py`'s `Component` class
  (bbox stored as the four integers `x, y, w, h`; pixel coordinates).
* Python float arithmetic on pixel quantities is modelled exactly over `ℚ`.
* Python strings are Lean `String`s; single-character `str.replace` is
  modelled on the underlying character list (`replaceAll`).
* Python's `sorted` (a stable sort) is modelled by `List.insertionSort`,
  which is stable and produces the same list for a total preorder key.
-/

/-- Embeds the `Component` class of `detector.py`: `id`, `type`,
`bbox = (x, y, w, h)` and `text` (children are never used by the
verified stages and are omitted). -/
structure Component where
  id : String
  type : String
  x : Int
  y : Int
  w : Int
  h : Int
  text : String
deriving DecidableEq, Repr

/-- Bounding-box area `w * h`, as computed throughout `detector.py`. -/
def Component.area (c : Component) : Int := c.w * c.h

/-- Embeds `classify_shape` of `detector.py` (the unused `processed_data`,
`x`, `y` parameters are dropped). `ar` is the aspect ratio `w / h`,
modelled over `ℚ`. -/
def classify_shape (w h area : Int) (ar : ℚ) : String :=
  if 200 < area ∧ area < 2000 ∧ (4/5 : ℚ) < ar ∧ ar < 6/5 then "checkbox"
  else if (5/2 : ℚ) < ar ∧ h < 60 then "input"
  else if (3/2 : ℚ) < ar ∧ ar < 4 ∧ 30 < h ∧ area < 20000 then "button"
  else if 40000 < area then "container"
  else "box"

/-- The call site of `classify_shape` in `detect_components`:
`area = w * h` and `aspect_ratio = w / h`. The unused `w` argument of the
Lean wrapper keeps the source's parameter list. -/
def classify (w h : Int) : String :=
  classify_shape w h (w * h) ((w : ℚ) / (h : ℚ))

/-- Intersection rectangle area of the two bounding boxes, exactly as
computed inside `filter_duplicates`. -/
def intersectionArea (current kept : Component) : Int :=
  let x_left := max current.x kept.x
  let y_top := max current.y kept.y
  let x_right := min (current.x + current.w) (kept.x + kept.w)
  let y_bottom := min (current.y + current.h) (kept.y + kept.h)
  if x_right < x_left ∨ y_bottom < y_top then 0
  else (x_right - x_left) * (y_bottom - y_top)

/-- Intersection over union as computed in `filter_duplicates`
(`0` when the union is not positive). -/
def iou (current kept : Component) : ℚ :=
  let inter := intersectionArea current kept
  let uni := current.area + kept.area - inter
  if 0 < uni then (inter : ℚ) / (uni : ℚ) else 0

/-- One iteration of the inner loop of `filter_duplicates`: decides
whether `current` is a duplicate of the already-kept component `kept`
(Method 1: IoU > 0.75; Method 2: containment `intersection ≥ 0.80 * area`
with the size-ratio thresholds 0.4 for equal types and 0.85 otherwise). -/
def isDuplicateOf (current kept : Component) : Bool :=
  let inter := intersectionArea current kept
  if (3/4 : ℚ) < iou current kept then true
  else if (4/5 : ℚ) * (current.area : ℚ) ≤ (inter : ℚ) then
    let size_ratio : ℚ :=
      if 0 < kept.area then (current.area : ℚ) / (kept.area : ℚ) else 0
    if current.type = kept.type then decide ((2/5 : ℚ) < size_ratio)
    else decide ((17/20 : ℚ) < size_ratio)
  else false

/-- Descending bounding-box area, the sort key of `filter_duplicates`
(`sorted(..., key=lambda c: c.bbox[2] * c.bbox[3], reverse=True)`). -/
def areaDesc (a b : Component) : Prop := b.area ≤ a.area

instance : DecidableRel areaDesc :=
  fun a b => inferInstanceAs (Decidable (b.area ≤ a.area))

instance : IsTotal Component areaDesc := ⟨fun a b => le_total b.area a.area⟩

instance : IsTrans Component areaDesc := ⟨fun _ _ _ h1 h2 => le_trans h2 h1⟩

/-- The main loop of `filter_duplicates`: walk the area-sorted components,
appending each one to `keep` unless some already-kept component makes it a
duplicate. -/
def filterDupsAux : List Component → List Component → List Component
  | [], keep => keep
  | current :: rest, keep =>
    if keep.any (fun kept => isDuplicateOf current kept) then
      filterDupsAux rest keep
    else
      filterDupsAux rest (keep ++ [current])

/-- Embeds `filter_duplicates` of `detector.py` (the early return for an
empty input yields the same empty list). -/
def filter_duplicates (components : List Component) : List Component :=
  filterDupsAux (List.insertionSort areaDesc components) []

/-! ### Layout engine (`codegen/layout_engine.py`) -/

/-- Embeds `LayoutNode` of `layout_engine.py` as the tagged tree the
code actually builds: the root container, row containers, and leaves
wrapping one component. -/
inductive LayoutNode : Type where
  | root (children : List LayoutNode)
  | row (children : List LayoutNode)
  | leaf (component : Component)

/-- Vertical center `y + h / 2` of a bounding box, over `ℚ`. -/
def centerY (c : Component) : ℚ := (c.y : ℚ) + (c.h : ℚ) / 2

/-- The row test of `build_layout_tree`: the candidate joins the current
row when its center is within `0.6 * avg_height` of the row reference. -/
def sameRow (ref curr : Component) : Bool :=
  let vertical_distance := |centerY curr - centerY ref|
  let avg_height := ((ref.h : ℚ) + (curr.h : ℚ)) / 2
  decide (vertical_distance < (3/5 : ℚ) * avg_height)

/-- The sort key of `build_layout_tree`'s first pass:
`(bbox.y, bbox.x)` ascending. -/
def yxOrder (a b : Component) : Prop :=
  a.y < b.y ∨ (a.y = b.y ∧ a.x ≤ b.x)

instance : DecidableRel yxOrder := fun a b =>
  inferInstanceAs (Decidable (a.y < b.y ∨ (a.y = b.y ∧ a.x ≤ b.x)))

/-- The in-row sort key: `bbox.x` ascending. -/
def xOrder (a b : Component) : Prop := a.x ≤ b.x

instance : DecidableRel xOrder :=
  fun a b => inferInstanceAs (Decidable (a.x ≤ b.x))

instance : IsTotal Component xOrder := ⟨fun a b => le_total a.x b.x⟩

instance : IsTrans Component xOrder := ⟨fun _ _ _ h1 h2 => le_trans h1 h2⟩

/-- The greedy row-grouping loop of `build_layout_tree`. The current row
is `ref :: rowTail`; `ref` stays the row's first member and is the only
reference for the distance test. -/
def groupRowsAux (ref : Component) (rowTail : List Component) :
    List Component → List (List Component)
  | [] => [ref :: rowTail]
  | curr :: rest =>
    if sameRow ref curr then groupRowsAux ref (rowTail ++ [curr]) rest
    else (ref :: rowTail) :: groupRowsAux curr [] rest

/-- Row grouping over the `(y, x)`-sorted component list. -/
def groupRows : List Component → List (List Component)
  | [] => []
  | c :: rest => groupRowsAux c [] rest

/-- The leaf-building loop for a multi-component row: each component not
already used becomes a leaf and its id is recorded. -/
def addRowLeaves : List Component → List String → List LayoutNode × List String
  | [], used => ([], used)
  | comp :: rest, used =>
    if used.contains comp.id then addRowLeaves rest used
    else
      let p := addRowLeaves rest (used ++ [comp.id])
      (LayoutNode.leaf comp :: p.1, p.2)

/-- Converts the grouped rows to layout nodes exactly as the second half
of `build_layout_tree` does: a single-member row becomes a leaf directly
under the root, a longer row is sorted by `x` and becomes a row node
(kept only when it has children); used ids are tracked across rows. -/
def buildRows : List (List Component) → List String → List LayoutNode × List String
  | [], used => ([], used)
  | rowComps :: rest, used =>
    match List.insertionSort xOrder rowComps with
    | [comp] =>
      if used.contains comp.id then buildRows rest used
      else
        let p := buildRows rest (used ++ [comp.id])
        (LayoutNode.leaf comp :: p.1, p.2)
    | sortedRow =>
      let q := addRowLeaves sortedRow used
      let p := buildRows rest q.2
      if q.1.isEmpty then p else (LayoutNode.row q.1 :: p.1, p.2)

/-- Embeds `build_layout_tree` of `layout_engine.py`: sort by `(y, x)`,
group into rows, convert rows to nodes under the root. An empty input
returns the bare root, as the early return does. -/
def build_layout_tree (components : List Component) : LayoutNode :=
  LayoutNode.root (buildRows (groupRows (List.insertionSort yxOrder components)) []).1

mutual

/-- Multiset (as list) of component ids wrapped in leaves of a node. -/
def leafIds : LayoutNode → List String
  | .root cs => leafIdsList cs
  | .row cs => leafIdsList cs
  | .leaf c => [c.id]

/-- Leaf-wrapped ids of a forest, in order. -/
def leafIdsList : List LayoutNode → List String
  | [] => []
  | n :: rest => leafIds n ++ leafIdsList rest

end

/-! ### Markup emission (`codegen/html_gen.py`, `codegen/css_gen.py`) -/

/-- Python's `"  " * indent_level`. -/
def indentStr (indent_level : Nat) : String :=
  String.join (List.replicate indent_level ("  "))

/-- Python's single-character `str.replace(pat, repl)`, on the character
list underlying the string. -/
def replaceAll (pat : Char) (repl : List Char) : List Char → List Char
  | [] => []
  | c :: rest => (if c = pat then repl else [c]) ++ replaceAll pat repl rest

/-- The chained replacements of `escape_html`, innermost (`&`) first. -/
def escape_chars (text : List Char) : List Char :=
  replaceAll '\x27' (("&#39;").data)
    (replaceAll '"' (("&quot;").data)
      (replaceAll '>' (("&gt;").data)
        (replaceAll '<' (("&lt;").data)
          (replaceAll '&' (("&amp;").data) text))))

/-- Embeds `escape_html` of `html_gen.py` (the `if not text` guard
included). -/
def escape_html (text : String) : String :=
  if text = "" then "" else ⟨escape_chars text.data⟩

/-- Embeds `generate_component_html` of `html_gen.py`. -/
def generate_component_html (component : Component) (indent_level : Nat) : String :=
  let indent := indentStr indent_level
  let c_type := component.type
  let c_id := component.id
  let text := component.text
  let comment := indent ++ "<!-- " ++ c_id ++ ": " ++ c_type ++ " -->\n"
  if c_type = "button" then
    let safe_text := if text ≠ "" then escape_html text else "Button"
    comment ++ indent ++ "<button class=\"btn\">" ++ safe_text ++ "</button>\n"
  else if c_type = "input" then
    let safe_placeholder := if text ≠ "" then escape_html text else "Enter text..."
    comment ++ indent ++ "<input type=\"text\" class=\"input-field\" placeholder=\"" ++
      safe_placeholder ++ "\" />\n"
  else if c_type = "label" then
    let safe_text := if text ≠ "" then escape_html text else "Label"
    comment ++ indent ++ "<label class=\"text-label\">" ++ safe_text ++ "</label>\n"
  else if c_type = "checkbox" then
    let safe_text := if text ≠ "" then escape_html text else "Option"
    comment ++ indent ++ "<div class=\"checkbox-wrapper\">\n" ++ indent ++
      "  <input type=\"checkbox\" id=\"" ++ c_id ++ "\" />\n" ++ indent ++
      "  <label for=\"" ++ c_id ++ "\">" ++ safe_text ++ "</label>\n" ++ indent ++ "</div>\n"
  else if c_type = "container" then
    comment ++ indent ++ "<div class=\"card\">\n" ++ indent ++
      "  <!-- Container content -->\n" ++ indent ++ "</div>\n"
  else
    comment ++ indent ++ "<div class=\"unknown-box\" data-type=\"" ++ c_type ++
      "\"><!-- Unknown component type --></div>\n"

mutual

/-- Embeds `generate_html` of `html_gen.py`: the root concatenates its
children at the same indent level, a row wraps its children (one level
deeper) in a `row-container` div, a leaf dispatches on component type. -/
def generate_html : LayoutNode → Nat → String
  | .root cs, indent_level => generate_html_children cs indent_level
  | .row cs, indent_level =>
    let indent := indentStr indent_level
    indent ++ "<div class=\"row-container\">\n" ++
      generate_html_children cs (indent_level + 1) ++ indent ++ "</div>\n"
  | .leaf comp, indent_level => generate_component_html comp indent_level

/-- In-order concatenation of the children's markup, as the `for` loops
of `generate_html` accumulate it. -/
def generate_html_children : List LayoutNode → Nat → String
  | [], _ => ""
  | n :: rest, indent_level =>
    generate_html n indent_level ++ generate_html_children rest indent_level

end

/-- Embeds `generate_css` of `css_gen.py`: the fixed stylesheet string. -/
def generate_css : String :=
  "\n" ++
  "/* ============================================\n" ++
  "   CodeBuddy Generated CSS\n" ++
  "   Auto-generated from UI sketch conversion\n" ++
  "   ============================================ */\n" ++
  "\n" ++
  "/* Base Styles */\n" ++
  "body \x7b\n" ++
  "    font-family: \x27Inter\x27, -apple-system, BlinkMacSystemFont, \x27Segoe UI\x27, sans-serif;\n" ++
  "    padding: 2rem;\n" ++
  "    background-color: #f4f6f8;\n" ++
  "    line-height: 1.6;\n" ++
  "\x7d\n" ++
  "\n" ++
  "/* Layout Container - Horizontal Row */\n" ++
  "/* Uses Flexbox to arrange child elements in a row */\n" ++
  ".row-container \x7b\n" ++
  "    display: flex;\n" ++
  "    flex-direction: row;\n" ++
  "    gap: 16px;\n" ++
  "    margin-bottom: 16px;\n" ++
  "    align-items: center;\n" ++
  "    flex-wrap: wrap;\n" ++
  "\x7d\n" ++
  "\n" ++
  "/* Button Component */\n" ++
  "/* Standard button with hover effect */\n" ++
  ".btn \x7b\n" ++
  "    padding: 10px 20px;\n" ++
  "    background-color: #007bff;\n" ++
  "    color: white;\n" ++
  "    border: none;\n" ++
  "    border-radius: 4px;\n" ++
  "    font-size: 16px;\n" ++
  "    font-weight: 500;\n" ++
  "    cursor: pointer;\n" ++
  "    transition: background-color 0.2s ease;\n" ++
  "\x7d\n" ++
  "\n" ++
  ".btn:hover \x7b\n" ++
  "    background-color: #0056b3;\n" ++
  "\x7d\n" ++
  "\n" ++
  ".btn:active \x7b\n" ++
  "    background-color: #004085;\n" ++
  "\x7d\n" ++
  "\n" ++
  "/* Input Field Component */\n" ++
  "/* Text input with border and focus state */\n" ++
  ".input-field \x7b\n" ++
  "    padding: 10px 12px;\n" ++
  "    border: 1px solid #ccc;\n" ++
  "    border-radius: 4px;\n" ++
  "    font-size: 16px;\n" ++
  "    min-width: 200px;\n" ++
  "    transition: border-color 0.2s ease;\n" ++
  "\x7d\n" ++
  "\n" ++
  ".input-field:focus \x7b\n" ++
  "    outline: none;\n" ++
  "    border-color: #007bff;\n" ++
  "    box-shadow: 0 0 0 3px rgba(0, 123, 255, 0.1);\n" ++
  "\x7d\n" ++
  "\n" ++
  "/* Text Label Component */\n" ++
  "/* Simple text label for form fields */\n" ++
  ".text-label \x7b\n" ++
  "    font-size: 14px;\n" ++
  "    color: #333;\n" ++
  "    font-weight: 500;\n" ++
  "    display: inline-block;\n" ++
  "\x7d\n" ++
  "\n" ++
  "/* Checkbox Component */\n" ++
  "/* Checkbox with aligned label */\n" ++
  ".checkbox-wrapper \x7b\n" ++
  "    display: flex;\n" ++
  "    align-items: center;\n" ++
  "    gap: 8px;\n" ++
  "\x7d\n" ++
  "\n" ++
  ".checkbox-wrapper input[type=\"checkbox\"] \x7b\n" ++
  "    width: 18px;\n" ++
  "    height: 18px;\n" ++
  "    cursor: pointer;\n" ++
  "\x7d\n" ++
  "\n" ++
  ".checkbox-wrapper label \x7b\n" ++
  "    cursor: pointer;\n" ++
  "    user-select: none;\n" ++
  "\x7d\n" ++
  "\n" ++
  "/* Container/Card Component */\n" ++
  "/* Card-style container for grouped elements */\n" ++
  ".card \x7b\n" ++
  "    background: white;\n" ++
  "    padding: 20px;\n" ++
  "    border-radius: 8px;\n" ++
  "    box-shadow: 0 2px 4px rgba(0, 0, 0, 0.1);\n" ++
  "    margin-bottom: 20px;\n" ++
  "\x7d\n" ++
  "\n" ++
  "/* Unknown Component Fallback */\n" ++
  "/* Visual indicator for unrecognized components */\n" ++
  ".unknown-box \x7b\n" ++
  "    border: 2px dashed #fecea8;\n" ++
  "    background: #fff4e5;\n" ++
  "    padding: 10px;\n" ++
  "    border-radius: 4px;\n" ++
  "    min-width: 50px;\n" ++
  "    min-height: 50px;\n" ++
  "\x7d\n" ++
  ""

/-! ### Request pipeline (`app.py`) -/

/-- The per-component fallback text applied in `upload_image` of `app.py`
when the extracted text is empty. -/
def apply_text_fallback (comp : Component) : Component :=
  if comp.text = "" then
    if comp.type = "button" then { comp with text := "Button" }
    else if comp.type = "input" then { comp with text := "Enter text" }
    else if comp.type = "label" then { comp with text := "Label" }
    else if comp.type = "checkbox" then { comp with text := "Option" }
    else comp
  else comp

/-- The deterministic core of `upload_image`: duplicate resolution, layout
synthesis, markup and stylesheet generation. -/
def pipeline (components : List Component) : String × String :=
  (generate_html (build_layout_tree (filter_duplicates components)) 0, generate_css)

/-! ### Spec-side definitions used by refinement-style claims -/

/-- The classifier rule table exactly as the specification words it
(first match wins, `box` fallback); to be compared with
`classify_shape`. -/
def classifySpec (w h area : Int) (ar : ℚ) : String :=
  if 200 < area ∧ area < 2000 ∧ (4/5 : ℚ) < ar ∧ ar < 6/5 then "checkbox"
  else if ar > (5/2 : ℚ) ∧ h < 60 then "input"
  else if (3/2 : ℚ) < ar ∧ ar < 4 ∧ h > 30 ∧ area < 20000 then "button"
  else if area > 40000 then "container"
  else "box"

/-- Modelled from the spec: the entity decoding a markup parser applies
to the emitted text — each of the five entities produced by
`escape_html` decodes back to its character, anything else is read
verbatim. The repository contains no parser; this is the spec's
round-trip collaborator. -/
def unescape : List Char → List Char
  | [] => []
  | c :: rest =>
    if c = '&' then
      if rest.take 4 = ('a' :: 'm' :: 'p' :: ';' :: []) then '&' :: unescape (rest.drop 4)
      else if rest.take 3 = ('l' :: 't' :: ';' :: []) then '<' :: unescape (rest.drop 3)
      else if rest.take 3 = ('g' :: 't' :: ';' :: []) then '>' :: unescape (rest.drop 3)
      else if rest.take 5 = ('q' :: 'u' :: 'o' :: 't' :: ';' :: []) then
        '\x22' :: unescape (rest.drop 5)
      else if rest.take 4 = ('#' :: '3' :: '9' :: ';' :: []) then '\x27' :: unescape (rest.drop 4)
      else c :: unescape rest
    else c :: unescape rest
termination_by l => l.length
decreasing_by all_goals (simp [List.length_drop]; try omega)

/-- The per-character reading of the spec's escaping contract: each of
the five markup-significant characters goes to its entity, every other
character is left unchanged. -/
def escEntity (c : Char) : List Char :=
  if c = '&' then ("&amp;").data
  else if c = '<' then ("&lt;").data
  else if c = '>' then ("&gt;").data
  else if c = '\x22' then ("&quot;").data
  else if c = '\x27' then ("&#39;").data
  else [c]

/-! ### Concrete components named in the spec's test properties -/

/-- Dedup example box `A = (0, 0, 100, 100)`. -/
def dedupA : Component := ⟨"A", "box", 0, 0, 100, 100, ""⟩

/-- Dedup example box `B = (5, 5, 95, 95)`, same type as `dedupA`. -/
def dedupB : Component := ⟨"B", "box", 5, 5, 95, 95, ""⟩

/-- Row-grouping example component `A (10, 10, 100, 40)`. -/
def rowA : Component := ⟨"A", "box", 10, 10, 100, 40, ""⟩

/-- Row-grouping example component `B (130, 12, 100, 40)`. -/
def rowB : Component := ⟨"B", "box", 130, 12, 100, 40, ""⟩

/-- Row-grouping example component `C (10, 100, 200, 40)`. -/
def rowC : Component := ⟨"C", "box", 10, 100, 200, 40, ""⟩

/-! ### Theorems -/

/-- C2: `classify_shape` is a total function evaluating the rule table in
fixed priority order with first match winning, agreeing with the spec's
table, and at the call site (`area = w * h`, `ar = w / h`) it sends
`(40, 40)` to checkbox, `(220, 40)` to input, `(300, 300)` to container
and `(13, 13)` to the `box` fallback. -/
theorem classify_shape_spec_table :
    (∀ (w h area : Int) (ar : ℚ), classify_shape w h area ar = classifySpec w h area ar) ∧
    classify 40 40 = "checkbox" ∧ classify 220 40 = "input" ∧
    classify 300 300 = "container" ∧ classify 13 13 = "box" := by
  refine ⟨fun w h area ar => rfl, ?_, ?_, ?_, ?_⟩ <;>
    norm_num [classify, classify_shape]

/-- C4 counterexample: for the spec's thick-border pair the IoU computed
by the code is `0.9025`, strictly above the `0.75` threshold, so the
claim that the IoU is about `0.70` and the IoU test does not remove `B`
is false. -/
theorem iou_thick_border_exceeds_threshold :
    iou dedupB dedupA = 361/400 ∧ ¬ (iou dedupB dedupA ≤ 3/4) := by
  constructor <;> norm_num [iou, intersectionArea, Component.area, dedupA, dedupB]

/-- C4 amended: for `A = (0,0,100,100)` and `B = (5,5,95,95)` of the same
type, the IoU is `0.9025 > 0.75`, so `B` is discarded by the IoU test
(the containment test is never reached), and `resolve([A, B]) = [A]`. -/
theorem filter_duplicates_thick_border_pair :
    iou dedupB dedupA = 361/400 ∧ (3/4 : ℚ) < iou dedupB dedupA ∧
    isDuplicateOf dedupB dedupA = true ∧
    filter_duplicates [dedupA, dedupB] = [dedupA] := by
  refine ⟨?_, ?_, ?_, ?_⟩ <;>
    norm_num [filter_duplicates, filterDupsAux, isDuplicateOf, iou, intersectionArea,
      Component.area, areaDesc, List.insertionSort, List.orderedInsert, dedupA, dedupB]

/-- C5: components `A (10,10,100,40)`, `B (130,12,100,40)`,
`C (10,100,200,40)`: the centers of `A` and `B` are 2 apart, below the
`0.6 * avgHeight = 24` bound, so `A` and `B` form one row ordered left to
right, `C` stands alone, and the tree is
`Root[Row[Leaf A, Leaf B], Leaf C]`. -/
theorem build_layout_tree_row_grouping_example :
    |centerY rowB - centerY rowA| = 2 ∧
    (3/5 : ℚ) * (((rowA.h : ℚ) + (rowB.h : ℚ)) / 2) = 24 ∧
    sameRow rowA rowB = true ∧
    build_layout_tree [rowA, rowB, rowC] =
      LayoutNode.root [LayoutNode.row [LayoutNode.leaf rowA, LayoutNode.leaf rowB],
        LayoutNode.leaf rowC] := by
  refine ⟨?_, ?_, ?_, ?_⟩
  · norm_num [centerY, rowA, rowB]
  · norm_num [rowA, rowB]
  · norm_num [sameRow, centerY, rowA, rowB]
  · norm_num [build_layout_tree, groupRows, groupRowsAux, buildRows, addRowLeaves,
      sameRow, centerY, yxOrder, xOrder, List.insertionSort, List.orderedInsert,
      rowA, rowB, rowC]
    simp

set_option maxRecDepth 40000 in
/-- C8: the empty component list yields a root with no children, empty
markup, and a still non-empty stylesheet. -/
theorem empty_input_behavior :
    build_layout_tree [] = LayoutNode.root [] ∧
    generate_html (build_layout_tree []) 0 = "" ∧
    generate_css ≠ "" := by
  have hroot : build_layout_tree [] = LayoutNode.root [] := by
    simp [build_layout_tree, groupRows, buildRows, List.insertionSort]
  refine ⟨hroot, ?_, ?_⟩
  · rw [hroot]; simp [generate_html, generate_html_children]
  · decide

/-- C9: the core pipeline (duplicate resolution, layout synthesis, markup
and stylesheet generation) is deterministic: two runs on the same input
produce identical markup and stylesheet strings. -/
theorem pipeline_deterministic (cs1 cs2 : List Component) (h : cs1 = cs2) :
    pipeline cs1 = pipeline cs2 := by rw [h]

/-- C9 witness: the two-run equality at a concrete input. -/
theorem pipeline_deterministic_witness :
    pipeline [dedupA, dedupB] = pipeline [dedupA, dedupB] :=
  pipeline_deterministic [dedupA, dedupB] [dedupA, dedupB] rfl

/-- C7: for every component with empty supplied text, the `upload_image`
fallback fills in the type-specific string ("Button", "Enter text",
"Label", "Option") and the emitted markup carries exactly that string in
the text position of the component's template. -/
theorem fallback_text_emitted (c : Component) (lvl : Nat) (h : c.text = "") :
    (c.type = "button" →
      generate_component_html (apply_text_fallback c) lvl =
        indentStr lvl ++ "<!-- " ++ c.id ++ ": button -->\n" ++ indentStr lvl ++
          "<button class=\"btn\">Button</button>\n") ∧
    (c.type = "input" →
      generate_component_html (apply_text_fallback c) lvl =
        indentStr lvl ++ "<!-- " ++ c.id ++ ": input -->\n" ++ indentStr lvl ++
          "<input type=\"text\" class=\"input-field\" placeholder=\"Enter text\" />\n") ∧
    (c.type = "label" →
      generate_component_html (apply_text_fallback c) lvl =
        indentStr lvl ++ "<!-- " ++ c.id ++ ": label -->\n" ++ indentStr lvl ++
          "<label class=\"text-label\">Label</label>\n") ∧
    (c.type = "checkbox" →
      generate_component_html (apply_text_fallback c) lvl =
        indentStr lvl ++ "<!-- " ++ c.id ++ ": checkbox -->\n" ++ indentStr lvl ++
          "<div class=\"checkbox-wrapper\">\n" ++ indentStr lvl ++
          "  <input type=\"checkbox\" id=\"" ++ c.id ++ "\" />\n" ++ indentStr lvl ++
          "  <label for=\"" ++ c.id ++ "\">Option</label>\n" ++ indentStr lvl ++ "</div>\n") := by
  have hb : escape_html ("Button") = "Button" := by decide
  have hi : escape_html ("Enter text") = "Enter text" := by decide
  have hl : escape_html ("Label") = "Label" := by decide
  have ho : escape_html ("Option") = "Option" := by decide
  refine ⟨fun ht => ?_, fun ht => ?_, fun ht => ?_, fun ht => ?_⟩ <;>
    simp [apply_text_fallback, h, ht, generate_component_html, hb, hi, hl, ho,
      String.ext_iff, String.data_append]

/-- C7 witness: the button case at a concrete empty-text component. -/
theorem fallback_text_emitted_witness :
    generate_component_html (apply_text_fallback ⟨"w7", "button", 0, 0, 10, 10, ""⟩) 0 =
      indentStr 0 ++ "<!-- " ++ "w7" ++ ": button -->\n" ++ indentStr 0 ++
        "<button class=\"btn\">Button</button>\n" :=
  (fallback_text_emitted ⟨"w7", "button", 0, 0, 10, 10, ""⟩ 0 rfl).1 rfl

/-- The `keep` list only ever grows at the tail: the result of
`filterDupsAux` is the incoming `keep` followed by a sublist of the
pending components. -/
theorem filterDupsAux_append (pending : List Component) :
    ∀ keep, ∃ s, filterDupsAux pending keep = keep ++ s ∧ List.Sublist s pending := by
  induction pending with
  | nil => intro keep; exact ⟨[], by simp [filterDupsAux]⟩
  | cons c rest ih =>
    intro keep
    rw [filterDupsAux]
    by_cases hdup : keep.any (fun kept => isDuplicateOf c kept) = true
    · rw [if_pos hdup]
      obtain ⟨s, hs, hsub⟩ := ih keep
      exact ⟨s, hs, hsub.trans (List.sublist_cons_self c rest)⟩
    · rw [if_neg hdup]
      obtain ⟨s, hs, hsub⟩ := ih (keep ++ [c])
      refine ⟨c :: s, by rw [hs]; simp, List.Sublist.cons₂ c hsub⟩

/-- C3: `filter_duplicates` returns a sublist of the stably area-sorted
input (so relative order is by descending area with detection-order
ties), its length is at most the input length, every output component is
an input component, and the output is pairwise ordered by descending
area. -/
theorem filter_duplicates_order_and_subset (comps : List Component) :
    List.Sublist (filter_duplicates comps) (List.insertionSort areaDesc comps) ∧
    (filter_duplicates comps).length ≤ comps.length ∧
    (∀ c ∈ filter_duplicates comps, c ∈ comps) ∧
    List.Pairwise areaDesc (filter_duplicates comps) := by
  obtain ⟨s, hs, hsub⟩ := filterDupsAux_append (List.insertionSort areaDesc comps) []
  have hsl : List.Sublist (filter_duplicates comps) (List.insertionSort areaDesc comps) := by
    rw [filter_duplicates, hs]; simpa using hsub
  have hperm := List.perm_insertionSort areaDesc comps
  refine ⟨hsl, ?_, ?_, ?_⟩
  · calc (filter_duplicates comps).length
        ≤ (List.insertionSort areaDesc comps).length := hsl.length_le
      _ = comps.length := hperm.length_eq
  · intro c hc
    exact hperm.mem_iff.mp (hsl.subset hc)
  · exact List.Pairwise.sublist hsl (List.sorted_insertionSort areaDesc comps)

/-- C10: on a non-empty input, `filter_duplicates` returns a non-empty
list whose first element is the head of the descending-area stable sort:
a maximum-area component of the input, kept unconditionally because the
kept list is empty when it is examined. -/
theorem filter_duplicates_keeps_largest (comps : List Component) (h : comps ≠ []) :
    filter_duplicates comps ≠ [] ∧
    ∃ m, (filter_duplicates comps).head? = some m ∧
      (List.insertionSort areaDesc comps).head? = some m ∧
      m ∈ comps ∧ ∀ c ∈ comps, c.area ≤ m.area := by
  have hperm := List.perm_insertionSort areaDesc comps
  have hsorted := List.sorted_insertionSort areaDesc comps
  obtain ⟨m, rest, hsr⟩ : ∃ m rest, List.insertionSort areaDesc comps = m :: rest := by
    cases hsrt : List.insertionSort areaDesc comps with
    | nil =>
      rw [hsrt] at hperm
      exact absurd hperm.symm.eq_nil h
    | cons a l => exact ⟨a, l, rfl⟩
  have hfd : ∃ s, filter_duplicates comps = m :: s := by
    obtain ⟨s, hs, _⟩ := filterDupsAux_append rest [m]
    refine ⟨s, ?_⟩
    rw [filter_duplicates, hsr, filterDupsAux]
    simpa using hs
  obtain ⟨s, hfds⟩ := hfd
  rw [hsr] at hsorted hperm
  refine ⟨by simp [hfds], m, by simp [hfds], by simp [hsr], ?_, ?_⟩
  · exact hperm.mem_iff.mp (List.mem_cons_self m rest)
  · intro c hc
    rcases List.mem_cons.mp (hperm.mem_iff.mpr hc) with hcm | hcr
    · exact le_of_eq (by rw [hcm])
    · exact (List.pairwise_cons.mp hsorted).1 c hcr

/-- C10 witness: the non-empty singleton input. -/
theorem filter_duplicates_keeps_largest_witness :
    ([dedupA] : List Component) ≠ [] ∧
    (filter_duplicates [dedupA] ≠ [] ∧
      ∃ m, (filter_duplicates [dedupA]).head? = some m ∧
        (List.insertionSort areaDesc [dedupA]).head? = some m ∧
        m ∈ [dedupA] ∧ ∀ c ∈ [dedupA], c.area ≤ m.area) :=
  ⟨by simp, filter_duplicates_keeps_largest [dedupA] (by simp)⟩

/-- Flattening the grouped rows returns the current row followed by the
pending components: grouping loses and duplicates nothing. -/
theorem groupRowsAux_flatten (pending : List Component) :
    ∀ ref rowTail, (groupRowsAux ref rowTail pending).flatten = ref :: (rowTail ++ pending) := by
  induction pending with
  | nil => intro ref rowTail; simp [groupRowsAux]
  | cons curr rest ih =>
    intro ref rowTail
    rw [groupRowsAux]
    by_cases hsame : sameRow ref curr = true
    · rw [if_pos hsame, ih]; simp
    · rw [if_neg hsame]; simp [ih]

/-- Row grouping is a partition: the concatenation of the rows is the
input list. -/
theorem groupRows_flatten (comps : List Component) : (groupRows comps).flatten = comps := by
  cases comps with
  | nil => simp [groupRows]
  | cons c rest => rw [groupRows, groupRowsAux_flatten]; simp

/-- The leaf ids of a list of leaves are the component ids, in order. -/
theorem leafIdsList_map_leaf (comps : List Component) :
    leafIdsList (comps.map LayoutNode.leaf) = comps.map Component.id := by
  induction comps with
  | nil => simp [leafIdsList]
  | cons c rest ih => simp [leafIdsList, leafIds, ih]

/-- When the row members are pairwise distinct and none was used before,
`addRowLeaves` wraps every member in a leaf and appends all ids. -/
theorem addRowLeaves_of_fresh (comps : List Component) :
    ∀ used, (∀ c ∈ comps, c.id ∉ used) → (comps.map Component.id).Nodup →
    addRowLeaves comps used = (comps.map LayoutNode.leaf, used ++ comps.map Component.id) := by
  induction comps with
  | nil => intro used _ _; simp [addRowLeaves]
  | cons comp rest ih =>
    intro used hfresh hnd
    have hcm : comp.id ∉ used := hfresh comp (List.mem_cons_self _ _)
    have hcontains : used.contains comp.id = false := by simpa using hcm
    have hnd' : comp.id ∉ rest.map Component.id ∧ (rest.map Component.id).Nodup :=
      List.nodup_cons.mp (by simpa using hnd)
    rw [addRowLeaves, hcontains]
    have hrest : addRowLeaves rest (used ++ [comp.id]) =
        (rest.map LayoutNode.leaf, (used ++ [comp.id]) ++ rest.map Component.id) := by
      apply ih
      · intro c hcrest
        simp only [List.mem_append, List.mem_singleton]
        push_neg
        refine ⟨hfresh c (List.mem_cons_of_mem _ hcrest), fun hEq => ?_⟩
        exact hnd'.1 (hEq ▸ List.mem_map_of_mem _ hcrest)
      · exact hnd'.2
    simp [hrest]

/-- With globally distinct, previously unused ids, the leaf ids of the
nodes built from the rows are a permutation of the ids of the rows'
members. -/
theorem buildRows_leafIds (rows : List (List Component)) :
    ∀ used, (∀ c ∈ rows.flatten, c.id ∉ used) → ((rows.flatten).map Component.id).Nodup →
    List.Perm (leafIdsList (buildRows rows used).1) ((rows.flatten).map Component.id) := by
  induction rows with
  | nil => intro used _ _; simp [buildRows, leafIdsList]
  | cons rowComps rest ih =>
    intro used hfresh hnd
    have hpermrow : List.Perm (List.insertionSort xOrder rowComps) rowComps :=
      List.perm_insertionSort xOrder rowComps
    simp only [List.flatten_cons] at hfresh hnd ⊢
    rw [List.map_append] at hnd
    obtain ⟨hnd1, hnd2, hdisj⟩ := List.nodup_append.mp hnd
    simp only [buildRows]
    rcases hsr : List.insertionSort xOrder rowComps with _ | ⟨a, _ | ⟨b, t⟩⟩
    · -- sorted row empty: the row itself is empty
      have hrc : rowComps = [] := by
        rw [hsr] at hpermrow
        exact hpermrow.symm.eq_nil
      subst hrc
      simp only [List.nil_append] at hfresh ⊢
      simpa [addRowLeaves, leafIdsList] using ih used hfresh (by simpa using hnd2)
    · -- singleton row: leaf directly under root
      have hrc : rowComps = [a] := by
        rw [hsr] at hpermrow
        exact List.perm_singleton.mp hpermrow.symm
      subst hrc
      have ha : a.id ∉ used := hfresh a (by simp)
      have hacontains : used.contains a.id = false := by simpa using ha
      dsimp only
      rw [hacontains]
      simp only [Bool.false_eq_true, if_false, leafIdsList, leafIds]
      have hih := ih (used ++ [a.id]) ?fresh ?nodup
      case fresh =>
        intro c hc
        simp only [List.mem_append, List.mem_singleton]
        push_neg
        refine ⟨hfresh c (by simp [hc]), fun hEq => ?_⟩
        have : c.id ∈ (rest.flatten).map Component.id := List.mem_map_of_mem _ hc
        have := hdisj (by simp : a.id ∈ [a].map Component.id)
        exact this (hEq ▸ List.mem_map_of_mem _ hc)
      case nodup => exact hnd2
      simpa using hih.cons a.id
    · -- longer row: a row node with the sorted leaves
      have hsrfresh : ∀ c ∈ a :: b :: t, c.id ∉ used := by
        intro c hc
        rw [← hsr] at hc
        exact hfresh c (List.mem_append.mpr (Or.inl (hpermrow.mem_iff.mp hc)))
      have hsrids : List.Perm ((a :: b :: t).map Component.id) (rowComps.map Component.id) := by
        rw [← hsr]
        exact hpermrow.map _
      have hsrnodup : ((a :: b :: t).map Component.id).Nodup :=
        hsrids.nodup_iff.mpr hnd1
      dsimp only
      rw [addRowLeaves_of_fresh (a :: b :: t) used hsrfresh hsrnodup]
      simp only [List.map_cons, List.isEmpty_cons, Bool.false_eq_true, if_false,
        leafIdsList, leafIds]
      rw [leafIdsList_map_leaf]
      have hih := ih (used ++ (a :: b :: t).map Component.id) ?fresh2 ?nodup2
      case fresh2 =>
        intro c hc
        simp only [List.mem_append]
        push_neg
        refine ⟨hfresh c (by simp [hc]), fun hmem => ?_⟩
        have hcin : c.id ∈ rowComps.map Component.id := hsrids.mem_iff.mp hmem
        exact (List.disjoint_right.mp hdisj (List.mem_map_of_mem _ hc)) hcin
      case nodup2 => exact hnd2
      have hgoal := hsrids.append hih
      simp only [List.map_append]
      simpa using hgoal

/-- C1: for every non-empty component list with pairwise distinct ids,
the multiset of leaf-wrapped ids of the tree built by `build_layout_tree`
equals the multiset of input ids — nothing omitted, nothing duplicated. -/
theorem build_layout_tree_conservation (comps : List Component)
    (hne : comps ≠ []) (hnd : (comps.map Component.id).Nodup) :
    ((leafIds (build_layout_tree comps) : List String) : Multiset String) =
      ((comps.map Component.id : List String) : Multiset String) := by
  have hperm := List.perm_insertionSort yxOrder comps
  have hids : List.Perm
      ((groupRows (List.insertionSort yxOrder comps)).flatten.map Component.id)
      (comps.map Component.id) := by
    rw [groupRows_flatten]
    exact hperm.map _
  have h1 := buildRows_leafIds (groupRows (List.insertionSort yxOrder comps)) []
    (by simp) (hids.nodup_iff.mpr hnd)
  rw [build_layout_tree]
  simp only [leafIds]
  exact Multiset.coe_eq_coe.mpr (h1.trans hids)

/-- C1 witness: conservation at the three-component example. -/
theorem build_layout_tree_conservation_witness :
    ((leafIds (build_layout_tree [rowA, rowB, rowC]) : List String) : Multiset String) =
      (([rowA, rowB, rowC].map Component.id : List String) : Multiset String) :=
  build_layout_tree_conservation [rowA, rowB, rowC] (by decide) (by decide)

/-- `replaceAll` distributes over list append. -/
theorem replaceAll_append (pat : Char) (repl : List Char) (l1 l2 : List Char) :
    replaceAll pat repl (l1 ++ l2) = replaceAll pat repl l1 ++ replaceAll pat repl l2 := by
  induction l1 with
  | nil => simp [replaceAll]
  | cons c rest ih => simp [replaceAll, ih]

/-- The chained replacements distribute over append. -/
theorem escape_chars_append (l1 l2 : List Char) :
    escape_chars (l1 ++ l2) = escape_chars l1 ++ escape_chars l2 := by
  simp [escape_chars, replaceAll_append]

/-- On a single character the five chained replacements act exactly as the
per-character entity map: the replacement strings contain none of the
characters replaced after them. -/
theorem escape_chars_singleton (c : Char) : escape_chars [c] = escEntity c := by
  by_cases h1 : c = '&'
  · subst h1; decide
  · by_cases h2 : c = '<'
    · subst h2; decide
    · by_cases h3 : c = '>'
      · subst h3; decide
      · by_cases h4 : c = '\x22'
        · subst h4; decide
        · by_cases h5 : c = '\x27'
          · subst h5; decide
          · simp [escape_chars, replaceAll, escEntity, h1, h2, h3, h4, h5]

/-- The chained replacements of `escape_html` equal the single-pass
per-character entity substitution. -/
theorem escape_chars_eq_flatMap (l : List Char) :
    escape_chars l = l.flatMap escEntity := by
  induction l with
  | nil => decide
  | cons c rest ih =>
    rw [show (c :: rest) = [c] ++ rest from rfl, escape_chars_append,
      escape_chars_singleton, ih]
    simp

/-- Entity decoding reads one escaped character off the front: over each
of the five entities it returns the original character, and any other
leading character is read verbatim. -/
theorem unescape_entity_cons (c : Char) (l : List Char) :
    unescape (escEntity c ++ l) = c :: unescape l := by
  by_cases h1 : c = '&'
  · subst h1
    rw [show escEntity '&' ++ l = '&' :: ('a' :: 'm' :: 'p' :: ';' :: l) from rfl, unescape]
    simp [List.take, List.drop]
  · by_cases h2 : c = '<'
    · subst h2
      rw [show escEntity '<' ++ l = '&' :: ('l' :: 't' :: ';' :: l) from rfl, unescape]
      simp [List.take, List.drop]
    · by_cases h3 : c = '>'
      · subst h3
        rw [show escEntity '>' ++ l = '&' :: ('g' :: 't' :: ';' :: l) from rfl, unescape]
        simp [List.take, List.drop]
      · by_cases h4 : c = '\x22'
        · subst h4
          rw [show escEntity '\x22' ++ l =
            '&' :: ('q' :: 'u' :: 'o' :: 't' :: ';' :: l) from rfl, unescape]
          simp [List.take, List.drop]
        · by_cases h5 : c = '\x27'
          · subst h5
            rw [show escEntity '\x27' ++ l =
              '&' :: ('#' :: '3' :: '9' :: ';' :: l) from rfl, unescape]
            simp [List.take, List.drop]
          · rw [show escEntity c ++ l = c :: l by simp [escEntity, h1, h2, h3, h4, h5],
              unescape]
            simp [h1]

/-- Decoding is a left inverse of the per-character entity substitution. -/
theorem unescape_flatMap (l : List Char) :
    unescape (l.flatMap escEntity) = l := by
  induction l with
  | nil => simp [unescape]
  | cons c rest ih => rw [List.flatMap_cons, unescape_entity_cons, ih]

/-- C6: `escape_html` replaces each of the five markup-significant
characters by its entity and leaves every other character unchanged
(the per-character map `escEntity`), entity decoding recovers the
original string for every input, and the spec's example text emits as
`Submit &amp; &lt;Close&gt;`. -/
theorem escape_html_entities_roundtrip :
    (∀ s : String, (escape_html s).data = s.data.flatMap escEntity) ∧
    (∀ s : String, unescape (escape_html s).data = s.data) ∧
    escape_html ("Submit & <Close>") = "Submit &amp; &lt;Close&gt;" := by
  have hdata : ∀ s : String, (escape_html s).data = s.data.flatMap escEntity := by
    intro s
    by_cases hs : s = ""
    · subst hs; decide
    · rw [escape_html, if_neg hs]
      exact escape_chars_eq_flatMap s.data
  refine ⟨hdata, fun s => ?_, by decide⟩
  rw [hdata s]
  exact unescape_flatMap s.data
